import Mathlib

/-!
Shallow embedding of `src/app/page.tsx` of the video-poster-image-generator
repository: the batch frame-extraction pipeline (`handleProcess`) and the
archive packager (`handleDownloadAll`), together with proofs of the spec
claims about them.

Byte buffers are modelled as `List Nat`; browser blob object URLs are
modelled by the bytes they dereference to; the ffmpeg virtual file system
is an association list from names to byte buffers; `uuidv4` is modelled as
a fresh-name supply indexed by a counter; network fetch and the
decode-and-extract step performed by `ffmpeg.run` are oracles supplied by
an environment record, returning `none` on failure (a thrown exception at
that point of the source).
-/

/-- `IVideoInput` from src/app/page.tsx (lines 9-12): one unit of work. -/
structure IVideoInput where
  url : String
  frame : Nat
deriving DecidableEq

/-- `IImageData` from src/app/page.tsx (lines 14-17).  The `url` field holds
a blob object URL in the source; a blob URL is modelled here by the byte
buffer it dereferences to. -/
structure IImageData where
  url : List Nat
  filename : String
deriving DecidableEq

/-- `video.url.substring(video.url.lastIndexOf("/") + 1)` (lines 98-100):
the substring after the final slash, or the whole string when none. -/
def lastSegment (s : List Char) : List Char :=
  (s.reverse.takeWhile (fun c => !(c == '/'))).reverse

/-- `videoFileName.replace(/\.[^/.]+$/, "")` (line 102): remove a trailing
dot followed by one or more characters none of which is a dot or slash;
leave the string unchanged when no such suffix exists. -/
def stripLastExt (s : List Char) : List Char :=
  let p := s.reverse.takeWhile (fun c => !(c == '.') && !(c == '/'))
  match s.reverse.dropWhile (fun c => !(c == '.') && !(c == '/')) with
  | '.' :: rest => if p.isEmpty then s else rest.reverse
  | _ => s

/-- The filename derivation of lines 97-102: last path segment, extension
stripped, `.webp` appended. -/
def imageFileNameOf (url : String) : String :=
  ⟨stripLastExt (lastSegment url.data) ++ ".webp".data⟩

/-- Oracles for the effects performed inside `handleProcess`:
`fetch` is the network retrieval of lines 69-70 (bytes, or `none` for a
thrown network error); `extract` is the decode-and-frame-selection that
`ffmpeg.run` performs on the staged input bytes (lines 80-88), producing
the webp bytes of the selected frame, or `none` when decoding or frame
selection fails; `loadOk` tells whether `ffmpeg.load()` (line 64)
succeeds. -/
structure Env where
  fetch : String → Option (List Nat)
  extract : List Nat → Nat → Option (List Nat)
  loadOk : Bool

/-- The ffmpeg virtual file system (MEMFS): a finite map from file names
to byte buffers, represented as an association list. -/
abbrev FSys := List (String × List Nat)

/-- `ffmpeg.FS("writeFile", name, data)`: create or overwrite the entry. -/
def writeFileFS (fs : FSys) (name : String) (data : List Nat) : FSys :=
  fs.filter (fun e => !(e.1 == name)) ++ [(name, data)]

/-- `ffmpeg.FS("unlink", name)`: remove the entry. -/
def unlinkFS (fs : FSys) (name : String) : FSys :=
  fs.filter (fun e => !(e.1 == name))

/-- `ffmpeg.FS("readFile", name)`: the entry's bytes, `none` (a thrown
error) when absent. -/
def readFileFS (fs : FSys) (name : String) : Option (List Nat) :=
  (fs.find? (fun e => e.1 == name)).map Prod.snd

/-- `uuidv4()` modelled as a fresh-name supply indexed by a counter:
distinct indices yield distinct names. -/
def uuidName (n : Nat) : String := "uuid-" ++ toString n

/-- One iteration of the `for` loop of `handleProcess` (lines 67-113):
fetch the video, stage it in the virtual file system under a fresh
`.mp4` name, run the extraction writing a fresh `.webp` name, read it
back, derive the display filename, and unlink both scratch entries.
Any failure is caught by the surrounding `try`/`catch`, which performs
no cleanup: the function then returns the file system as it stood when
the exception was thrown, and no image.  Returns the file system, the
next fresh-name index, and the produced image if any. -/
def processVideo (env : Env) (fs : FSys) (names : Nat) (v : IVideoInput) :
    FSys × Nat × Option IImageData :=
  match env.fetch v.url with
  | none => (fs, names, none)
  | some videoData =>
    let inputFileName := uuidName names ++ ".mp4"
    let fs1 := writeFileFS fs inputFileName videoData
    let outputFileName := uuidName (names + 1) ++ ".webp"
    match env.extract videoData v.frame with
    | none => (fs1, names + 2, none)
    | some data =>
      let fs2 := writeFileFS fs1 outputFileName data
      match readFileFS fs2 outputFileName with
      | none => (fs2, names + 2, none)
      | some out =>
        let img : IImageData := { url := out, filename := imageFileNameOf v.url }
        let fs3 := unlinkFS (unlinkFS fs2 inputFileName) outputFileName
        (fs3, names + 2, some img)

/-- The state produced by running the whole `for` loop: the final file
system and name counter, the `newImages` list in push order, and the list
of inputs for which the `catch` branch fired an alert (line 111), in
order. -/
structure LoopOut where
  fs : FSys
  names : Nat
  images : List IImageData
  failures : List IVideoInput
deriving DecidableEq

/-- The `for` loop of lines 67-113: items are processed one at a time in
list order, each to completion (including its error handling) before the
next begins. -/
def processLoop (env : Env) (fs : FSys) (names : Nat) :
    List IVideoInput → LoopOut
  | [] => ⟨fs, names, [], []⟩
  | v :: rest =>
    let r := processVideo env fs names v
    let tail := processLoop env r.1 r.2.1 rest
    match r.2.2 with
    | some img => { tail with images := img :: tail.images }
    | none => { tail with failures := v :: tail.failures }

/-- The state of the shared ffmpeg instance: whether `ffmpeg.load()` has
completed (`ffmpeg.isLoaded()`), plus an event counter recording how many
times `ffmpeg.load()` has been invoked in this process lifetime. -/
structure FFmpegState where
  loaded : Bool
  loadCount : Nat
deriving DecidableEq

/-- The React state of `HomePage` (lines 20-22): the pending input list,
the last result list, and the processing flag. -/
structure AppState where
  videos : List IVideoInput
  images : List IImageData
  isProcessing : Bool
deriving DecidableEq

/-- Everything a completed `handleProcess` call leaves behind. -/
structure BatchOutcome where
  ff : FFmpegState
  fs : FSys
  names : Nat
  st : AppState
  failures : List IVideoInput
deriving DecidableEq

/-- `handleProcess` (lines 56-117).  `setIsProcessing(true)`; load ffmpeg
when not already loaded — if `load()` throws, the async function rejects
right there (`.error` carries the state at that point: the file system
untouched, no input fetched, `images` not yet replaced); otherwise run
the per-item loop, then `setImages(newImages)` and
`setIsProcessing(false)`. -/
def handleProcess (env : Env) (ff : FFmpegState) (fs : FSys) (names : Nat)
    (st : AppState) :
    Except (FFmpegState × FSys × Nat × AppState) BatchOutcome :=
  let st1 : AppState := { st with isProcessing := true }
  if ff.loaded then
    let r := processLoop env fs names st.videos
    .ok { ff := ff, fs := r.fs, names := r.names,
          st := { st1 with images := r.images, isProcessing := false },
          failures := r.failures }
  else if env.loadOk then
    let ff1 : FFmpegState := { loaded := true, loadCount := ff.loadCount + 1 }
    let r := processLoop env fs names st.videos
    .ok { ff := ff1, fs := r.fs, names := r.names,
          st := { st1 with images := r.images, isProcessing := false },
          failures := r.failures }
  else
    .error ({ ff with loadCount := ff.loadCount + 1 }, fs, names, st1)

/-- The whole client-side state between user actions. -/
structure SysState where
  ff : FFmpegState
  fs : FSys
  names : Nat
  st : AppState
deriving DecidableEq

/-- One user-triggered `handleProcess` invocation over a given pending
input list, threading the process-wide state whether the call completes
or rejects. -/
def runBatch (env : Env) (s : SysState) (videos : List IVideoInput) :
    SysState :=
  match handleProcess env s.ff s.fs s.names { s.st with videos := videos } with
  | .ok o => ⟨o.ff, o.fs, o.names, o.st⟩
  | .error e => ⟨e.1, e.2.1, e.2.2.1, e.2.2.2⟩

/-- The state at page load: ffmpeg not yet loaded, empty virtual file
system, one blank input row (line 20), no images, not processing. -/
def initState : SysState :=
  ⟨⟨false, 0⟩, [], 0, ⟨[⟨"", 0⟩], [], false⟩⟩

/-- Whether processing of one input succeeds: its fetch returns bytes and
extraction of the requested frame from those bytes returns image bytes.
This classification depends only on the environment and the input. -/
def itemOk (env : Env) (v : IVideoInput) : Bool :=
  match env.fetch v.url with
  | none => false
  | some b => (env.extract b v.frame).isSome

/-- The image a successful item contributes: the extracted webp bytes
under the filename derived from the source URL.  Only meaningful when
`itemOk env v = true`. -/
def imageOf (env : Env) (v : IVideoInput) : IImageData :=
  match env.fetch v.url with
  | none => { url := [], filename := imageFileNameOf v.url }
  | some b =>
    match env.extract b v.frame with
    | none => { url := [], filename := imageFileNameOf v.url }
    | some d => { url := d, filename := imageFileNameOf v.url }

/-- A JSZip archive: named byte entries in insertion order. -/
structure ZipArchive where
  files : List (String × List Nat)
deriving DecidableEq

/-- `zip.file(name, data)` (line 134): JSZip keys entries by name, so a
write under an existing name replaces that entry's content in place;
otherwise the entry is appended. -/
def zipFile (z : ZipArchive) (name : String) (data : List Nat) : ZipArchive :=
  if z.files.any (fun e => e.1 == name) then
    ⟨z.files.map (fun e => if e.1 == name then (name, data) else e)⟩
  else
    ⟨z.files ++ [(name, data)]⟩

/-- `handleDownloadAll` (lines 120-138) up to the generated archive: for
each image in result order, fetch its blob URL (yielding the image's
bytes) and add it to the zip under its filename. -/
def handleDownloadAll (images : List IImageData) : ZipArchive :=
  images.foldl (fun z img => zipFile z img.filename img.url) ⟨[]⟩

lemma filter_ne_self (fs : FSys) (name : String)
    (h : name ∉ fs.map Prod.fst) :
    fs.filter (fun e => !(e.1 == name)) = fs := by
  apply List.filter_eq_self.mpr
  intro e he
  have hne : e.1 ≠ name := fun hc => h (hc ▸ List.mem_map_of_mem Prod.fst he)
  simp [hne]

lemma find?_name_append (l1 l2 : FSys) (name : String)
    (h : ∀ e ∈ l1, e.1 ≠ name) :
    (l1 ++ l2).find? (fun e => e.1 == name) =
      l2.find? (fun e => e.1 == name) := by
  rw [List.find?_append]
  have hn : l1.find? (fun e => e.1 == name) = none := by
    apply List.find?_eq_none.mpr
    intro e he
    simp [h e he]
  simp [hn]

lemma readFile_write (fs : FSys) (name : String) (data : List Nat) :
    readFileFS (writeFileFS fs name data) name = some data := by
  unfold readFileFS writeFileFS
  rw [find?_name_append]
  · simp
  · intro e he
    have := List.of_mem_filter he
    simpa using this

lemma processVideo_image (env : Env) (fs : FSys) (names : Nat)
    (v : IVideoInput) :
    (processVideo env fs names v).2.2 =
      if itemOk env v then some (imageOf env v) else none := by
  unfold processVideo itemOk imageOf
  cases hf : env.fetch v.url with
  | none => simp
  | some b =>
    cases he : env.extract b v.frame with
    | none => simp [he]
    | some d => simp [he, readFile_write]

lemma processLoop_spec (env : Env) (vs : List IVideoInput) :
    ∀ (fs : FSys) (names : Nat),
      (processLoop env fs names vs).images =
        (vs.filter (itemOk env)).map (imageOf env) ∧
      (processLoop env fs names vs).failures =
        vs.filter (fun v => !(itemOk env v)) := by
  induction vs with
  | nil => intro fs names; simp [processLoop]
  | cons v rest ih =>
    intro fs names
    have h1 := (ih (processVideo env fs names v).1 (processVideo env fs names v).2.1).1
    have h2 := (ih (processVideo env fs names v).1 (processVideo env fs names v).2.1).2
    cases h : itemOk env v
    · simp [processLoop, processVideo_image, h, h1, h2]
    · simp [processLoop, processVideo_image, h, h1, h2]

lemma handleProcess_ok (env : Env) (ff : FFmpegState) (fs : FSys)
    (names : Nat) (st : AppState)
    (h : ff.loaded = true ∨ env.loadOk = true) :
    handleProcess env ff fs names st =
      .ok { ff := if ff.loaded then ff else ⟨true, ff.loadCount + 1⟩,
            fs := (processLoop env fs names st.videos).fs,
            names := (processLoop env fs names st.videos).names,
            st := ⟨st.videos, (processLoop env fs names st.videos).images,
                   false⟩,
            failures := (processLoop env fs names st.videos).failures } := by
  unfold handleProcess
  cases hl : ff.loaded with
  | true => simp [hl]
  | false =>
    have hok : env.loadOk = true := by
      cases h with
      | inl h1 => rw [hl] at h1; exact absurd h1 (by simp)
      | inr h2 => exact h2
    simp [hl, hok]

/-- A concrete environment in which every fetch and every extraction
succeeds. -/
def envAllOk : Env :=
  ⟨fun _ => some [0, 1], fun b n => some (n :: b), true⟩

/-- A concrete environment in which exactly the URL
"https://bad.example/x.mp4" is unreachable and everything else
succeeds. -/
def envOneBad : Env :=
  ⟨fun u => if u == "https://bad.example/x.mp4" then none else some [0, 1],
   fun b n => some (n :: b), true⟩

def vGood1 : IVideoInput := ⟨"https://ok.example/a/clip.mp4", 0⟩

def vBad : IVideoInput := ⟨"https://bad.example/x.mp4", 0⟩

def vGood2 : IVideoInput := ⟨"https://ok.example/b.mov", 2⟩

/-- App state holding three pending inputs, the middle one unreachable
under `envOneBad`. -/
def stThree : AppState := ⟨[vGood1, vBad, vGood2], [], false⟩

/-- The result list a completed batch call leaves in the `images` state:
`some` when the call completed normally, `none` when it rejected. -/
def resultImages
    (r : Except (FFmpegState × FSys × Nat × AppState) BatchOutcome) :
    Option (List IImageData) :=
  match r with
  | .ok o => some o.st.images
  | .error _ => none

/-- The per-item failure reports (one alert per failed input, in order) of
a completed batch call: `some` when the call completed normally, `none`
when it rejected. -/
def resultFailures
    (r : Except (FFmpegState × FSys × Nat × AppState) BatchOutcome) :
    Option (List IVideoInput) :=
  match r with
  | .ok o => some o.failures
  | .error _ => none

/-- C1: a fetch or decode failure while processing one input is caught and
recorded against that input alone — the batch call completes normally
(both projections are `some`, never an exception), the failure list is
exactly the failing inputs, and a result is still produced for every
other, independently valid, input. -/
theorem C1_failure_isolation (env : Env) (ff : FFmpegState) (fs : FSys)
    (names : Nat) (st : AppState)
    (h : ff.loaded = true ∨ env.loadOk = true) :
    resultFailures (handleProcess env ff fs names st) =
      some (st.videos.filter (fun v => !(itemOk env v))) ∧
    (resultImages (handleProcess env ff fs names st)).map List.length =
      some (st.videos.filter (itemOk env)).length := by
  rw [handleProcess_ok env ff fs names st h]
  unfold resultFailures resultImages
  simp [(processLoop_spec env st.videos fs names).1,
    (processLoop_spec env st.videos fs names).2]

theorem C1_failure_isolation_witness :
    resultFailures (handleProcess envOneBad ⟨true, 1⟩ [] 0 stThree) =
      some (stThree.videos.filter (fun v => !(itemOk envOneBad v))) ∧
    (resultImages (handleProcess envOneBad ⟨true, 1⟩ [] 0 stThree)).map
        List.length =
      some (stThree.videos.filter (itemOk envOneBad)).length :=
  C1_failure_isolation envOneBad ⟨true, 1⟩ [] 0 stThree (Or.inl rfl)

/-- C6: the batch results sequence lists the images of the successfully
processed inputs in submission order: the loop runs one item at a time in
the order given, each to completion before the next begins, and appends
each success, so the final `images` list is the in-order map of the
successful inputs. -/
theorem C6_results_in_submission_order (env : Env) (ff : FFmpegState)
    (fs : FSys) (names : Nat) (st : AppState)
    (h : ff.loaded = true ∨ env.loadOk = true) :
    resultImages (handleProcess env ff fs names st) =
      some ((st.videos.filter (itemOk env)).map (imageOf env)) := by
  rw [handleProcess_ok env ff fs names st h]
  unfold resultImages
  simp [(processLoop_spec env st.videos fs names).1]

theorem C6_results_in_submission_order_witness :
    resultImages (handleProcess envOneBad ⟨false, 0⟩ [] 0 stThree) =
      some ((stThree.videos.filter (itemOk envOneBad)).map
        (imageOf envOneBad)) :=
  C6_results_in_submission_order envOneBad ⟨false, 0⟩ [] 0 stThree
    (Or.inr rfl)

/-- C3: for every non-empty input list in which every fetch and every
extraction succeeds, the batch returns as many results as inputs and an
empty failure list. -/
theorem C3_all_valid_full_results (env : Env) (ff : FFmpegState)
    (fs : FSys) (names : Nat) (st : AppState)
    (h : ff.loaded = true ∨ env.loadOk = true)
    (hne : st.videos ≠ [])
    (hok : ∀ v ∈ st.videos, itemOk env v = true) :
    (resultImages (handleProcess env ff fs names st)).map List.length =
      some st.videos.length ∧
    resultFailures (handleProcess env ff fs names st) = some [] := by
  rw [handleProcess_ok env ff fs names st h]
  unfold resultFailures resultImages
  constructor
  · simp [(processLoop_spec env st.videos fs names).1,
      List.filter_eq_self.mpr hok]
  · simp only [(processLoop_spec env st.videos fs names).2]
    have hnil : st.videos.filter (fun v => !(itemOk env v)) = [] := by
      apply List.filter_eq_nil_iff.mpr
      intro v hv
      simp [hok v hv]
    rw [hnil]

/-- App state holding two pending inputs, both valid under `envAllOk`. -/
def stTwoGood : AppState := ⟨[vGood1, vGood2], [], false⟩

theorem C3_all_valid_full_results_witness :
    (resultImages (handleProcess envAllOk ⟨false, 0⟩ [] 0 stTwoGood)).map
        List.length =
      some stTwoGood.videos.length ∧
    resultFailures (handleProcess envAllOk ⟨false, 0⟩ [] 0 stTwoGood) =
      some [] :=
  C3_all_valid_full_results envAllOk ⟨false, 0⟩ [] 0 stTwoGood
    (Or.inr rfl) (by decide) (by decide)

lemma takeWhile_append_of_all {α : Type} (p : α → Bool) (l r : List α)
    (h : ∀ c ∈ l, p c = true) :
    (l ++ r).takeWhile p = l ++ r.takeWhile p := by
  induction l with
  | nil => simp
  | cons a t ih =>
    have ha : p a = true := h a (List.mem_cons_self a t)
    simp [List.takeWhile_cons, ha,
      ih (fun c hc => h c (List.mem_cons_of_mem a hc))]

lemma lastSegment_all_keep (b : List Char) (h : '/' ∉ b) :
    lastSegment b = b := by
  have hall : ∀ c ∈ b.reverse, (!(c == '/')) = true := by
    intro c hc
    have hcb : c ∈ b := List.mem_reverse.mp hc
    have hne : c ≠ '/' := fun hc2 => h (hc2 ▸ hcb)
    simp [hne]
  unfold lastSegment
  rw [List.takeWhile_eq_self_iff.mpr hall, List.reverse_reverse]

lemma lastSegment_after_slash (a b : String) (h : '/' ∉ b.data) :
    lastSegment (a ++ "/" ++ b).data = b.data := by
  have hall : ∀ c ∈ b.data.reverse, (!(c == '/')) = true := by
    intro c hc
    have hcb : c ∈ b.data := List.mem_reverse.mp hc
    have hne : c ≠ '/' := fun hc2 => h (hc2 ▸ hcb)
    simp [hne]
  have hdata : (a ++ "/" ++ b).data = a.data ++ ('/' :: b.data) := by
    simp [String.data_append]
  unfold lastSegment
  rw [hdata, List.reverse_append, List.reverse_cons, List.append_assoc,
    takeWhile_append_of_all _ _ _ hall]
  simp

/-- C2 (amended): filename derivation is a pure function of the source
URL alone, determined entirely by the last path segment; it strips the
trailing extension of that segment and appends ".webp".  In particular
"https://x.com/a/clip.mp4" maps to "clip.webp", "https://x.com/noext"
maps to "noext.webp", and "https://x.com/a.b.c.mov" maps to
"a.b.c.webp" (only the final ".mov" segment is stripped). -/
theorem C2_filename_derivation :
    (∀ a b : String, '/' ∉ b.data →
      imageFileNameOf (a ++ "/" ++ b) = imageFileNameOf b) ∧
    imageFileNameOf "https://x.com/a/clip.mp4" = "clip.webp" ∧
    imageFileNameOf "https://x.com/noext" = "noext.webp" ∧
    imageFileNameOf "https://x.com/a.b.c.mov" = "a.b.c.webp" := by
  refine ⟨?_, by decide, by decide, by decide⟩
  intro a b h
  unfold imageFileNameOf
  rw [lastSegment_after_slash a b h, lastSegment_all_keep b.data h]

theorem C2_filename_derivation_witness :
    imageFileNameOf ("https://x.com" ++ "/" ++ "clip.mp4") =
      imageFileNameOf "clip.mp4" :=
  C2_filename_derivation.1 "https://x.com" "clip.mp4" (by decide)

/-- C2 counterexample: on "https://x.com/a.b.c.mov" the code derives
"a.b.c.webp" (the regex strips only the final ".mov"), not the "a.b.webp"
stated by the claim. -/
theorem C2_filename_counterexample :
    imageFileNameOf "https://x.com/a.b.c.mov" = "a.b.c.webp" ∧
    imageFileNameOf "https://x.com/a.b.c.mov" ≠ "a.b.webp" := by decide

/-- C8: for every URL whose final path segment is empty — the URL ends in
a slash or is the empty string — the derived filename is exactly ".webp":
the empty base name matches no extension pattern, nothing is stripped, and
only the ".webp" suffix is appended. -/
theorem C8_empty_segment (url : String)
    (h : url = "" ∨ ∃ s : String, url = s ++ "/") :
    imageFileNameOf url = ".webp" := by
  cases h with
  | inl h0 => rw [h0]; decide
  | inr hs =>
    obtain ⟨s, rfl⟩ := hs
    have h1 : lastSegment (s ++ "/").data = [] := by
      simp [lastSegment, String.data_append, List.reverse_append]
    unfold imageFileNameOf
    rw [h1]
    decide

theorem C8_empty_segment_witness :
    imageFileNameOf "https://x.com/a/" = ".webp" :=
  C8_empty_segment "https://x.com/a/" (Or.inr ⟨"https://x.com/a", rfl⟩)

lemma append_mp4_ne_append_webp (a b : String) :
    a ++ ".mp4" ≠ b ++ ".webp" := by
  intro h
  have hd : a.data ++ ".mp4".data = b.data ++ ".webp".data := by
    have h2 := congrArg String.data h
    simpa [String.data_append] using h2
  have h3 := congrArg List.reverse hd
  rw [List.reverse_append, List.reverse_append] at h3
  have e1 : (".mp4".data).reverse = ['4', 'p', 'm', '.'] := rfl
  have e2 : (".webp".data).reverse = ['p', 'b', 'e', 'w', '.'] := rfl
  rw [e1, e2] at h3
  simp only [List.cons_append] at h3
  injection h3 with h4 h5
  exact absurd h4 (by decide)

lemma scratch_roundtrip (fs : FSys) (inN outN : String) (b d : List Nat)
    (hin : inN ∉ fs.map Prod.fst) (hout : outN ∉ fs.map Prod.fst)
    (hio : inN ≠ outN) :
    unlinkFS (unlinkFS (writeFileFS (writeFileFS fs inN b) outN d) inN) outN
      = fs := by
  have hbe : (inN == outN) = false := by simp [hio]
  have hbe2 : (outN == inN) = false := by simp [Ne.symm hio]
  have h1 : writeFileFS fs inN b = fs ++ [(inN, b)] := by
    unfold writeFileFS
    rw [filter_ne_self fs inN hin]
  have h2 : writeFileFS (fs ++ [(inN, b)]) outN d =
      fs ++ [(inN, b), (outN, d)] := by
    unfold writeFileFS
    rw [List.filter_append, filter_ne_self fs outN hout]
    simp [hbe]
  have h3 : unlinkFS (fs ++ [(inN, b), (outN, d)]) inN =
      fs ++ [(outN, d)] := by
    unfold unlinkFS
    rw [List.filter_append, filter_ne_self fs inN hin]
    simp [hbe2]
  have h4 : unlinkFS (fs ++ [(outN, d)]) outN = fs := by
    unfold unlinkFS
    rw [List.filter_append, filter_ne_self fs outN hout]
    simp
  rw [h1, h2, h3, h4]

/-- C4 (amended): the scratch entries staged for an item are released on
the success path — after a successful item the virtual file system is
exactly as before — and a fetch failure stages nothing; but when decode or
frame extraction fails, the `catch` branch performs no cleanup and the
staged input video entry remains in the virtual file system. -/
theorem C4_scratch_release (env : Env) (fs : FSys) (names : Nat)
    (v : IVideoInput)
    (hin : (uuidName names ++ ".mp4") ∉ fs.map Prod.fst)
    (hout : (uuidName (names + 1) ++ ".webp") ∉ fs.map Prod.fst) :
    (processVideo env fs names v).1 =
      (match env.fetch v.url with
       | none => fs
       | some b =>
         match env.extract b v.frame with
         | none => writeFileFS fs (uuidName names ++ ".mp4") b
         | some _ => fs) := by
  cases hf : env.fetch v.url with
  | none =>
    unfold processVideo
    simp [hf]
  | some b =>
    cases he : env.extract b v.frame with
    | none =>
      unfold processVideo
      simp [hf, he]
    | some d =>
      unfold processVideo
      simp [hf, he, readFile_write]
      exact scratch_roundtrip fs _ _ b d hin hout
        (append_mp4_ne_append_webp _ _)

/-- A concrete environment in which every fetch succeeds but every
decode/extract fails. -/
def envExtractFails : Env := ⟨fun _ => some [9, 9], fun _ _ => none, true⟩

/-- C4 counterexample: processing an item whose extraction fails leaves
the staged input entry "uuid-0.mp4" in the virtual file system — the
claim that neither scratch entry remains on every exit path is false on
the code. -/
theorem C4_scratch_release_counterexample :
    (processVideo envExtractFails [] 0 ⟨"https://x.com/a.mp4", 0⟩).1 =
      [("uuid-0.mp4", [9, 9])] ∧
    (processVideo envExtractFails [] 0 ⟨"https://x.com/a.mp4", 0⟩).1 ≠ [] := by
  decide

theorem C4_scratch_release_witness :
    (processVideo envAllOk [] 0 vGood1).1 =
      (match envAllOk.fetch vGood1.url with
       | none => []
       | some b =>
         match envAllOk.extract b vGood1.frame with
         | none => writeFileFS [] (uuidName 0 ++ ".mp4") b
         | some _ => []) :=
  C4_scratch_release envAllOk [] 0 vGood1 (by decide) (by decide)

lemma zipFile_fresh (z : ZipArchive) (name : String) (data : List Nat)
    (h : name ∉ z.files.map Prod.fst) :
    zipFile z name data = ⟨z.files ++ [(name, data)]⟩ := by
  have hany : z.files.any (fun e => e.1 == name) = false := by
    rw [List.any_eq_false]
    intro e he
    simp only [beq_iff_eq]
    intro hb
    exact h (hb ▸ List.mem_map_of_mem Prod.fst he)
  simp [zipFile, hany]

lemma zip_foldl_fresh (images : List IImageData) :
    ∀ z : ZipArchive,
      (∀ i ∈ images, i.filename ∉ z.files.map Prod.fst) →
      (images.map (fun i => i.filename)).Nodup →
      (images.foldl (fun z2 img => zipFile z2 img.filename img.url) z).files
        = z.files ++ images.map (fun i => (i.filename, i.url)) := by
  induction images with
  | nil =>
    intro z h hn
    simp
  | cons i rest ih =>
    intro z h hn
    have hfresh : i.filename ∉ z.files.map Prod.fst :=
      h i (List.mem_cons_self i rest)
    have hnodup : i.filename ∉ List.map (fun k => k.filename) rest ∧
        (List.map (fun k => k.filename) rest).Nodup := by
      rw [List.map_cons] at hn
      exact List.nodup_cons.mp hn
    simp only [List.foldl_cons, zipFile_fresh z i.filename i.url hfresh]
    rw [ih ⟨z.files ++ [(i.filename, i.url)]⟩ ?_ hnodup.2]
    · simp
    · intro j hj
      simp only [List.map_append, List.mem_append]
      rintro (hj1 | hj2)
      · exact h j (List.mem_cons_of_mem i hj) hj1
      · have : j.filename = i.filename := by simpa using hj2
        exact hnodup.1 (this ▸ List.mem_map_of_mem (fun k => k.filename) hj)

/-- C5 (amended): for a sequence of images whose filenames are pairwise
distinct, the produced archive has exactly one entry per image, the entry
name being the image's filename and the content its bytes, in order —
unpacking the archive recovers exactly the original names and bytes. -/
theorem C5_archive_roundtrip (images : List IImageData)
    (h : (images.map (fun i => i.filename)).Nodup) :
    (handleDownloadAll images).files =
      images.map (fun i => (i.filename, i.url)) := by
  unfold handleDownloadAll
  have := zip_foldl_fresh images ⟨[]⟩ (by simp) h
  simpa using this

theorem C5_archive_roundtrip_witness :
    (handleDownloadAll [⟨[1], "a.webp"⟩, ⟨[2], "b.webp"⟩]).files =
      ([⟨[1], "a.webp"⟩, ⟨[2], "b.webp"⟩] : List IImageData).map
        (fun i => (i.filename, i.url)) :=
  C5_archive_roundtrip [⟨[1], "a.webp"⟩, ⟨[2], "b.webp"⟩] (by decide)

/-- C5 counterexample: two images sharing the filename "a.webp" produce an
archive with a single entry, not one entry per image, so the unqualified
round-trip claim is false on the code. -/
theorem C5_archive_roundtrip_counterexample :
    (handleDownloadAll [⟨[1], "a.webp"⟩, ⟨[2], "a.webp"⟩]).files.length = 1 ∧
    ([⟨[1], "a.webp"⟩, ⟨[2], "a.webp"⟩] : List IImageData).length = 2 := by
  decide

/-- C9: when two images in the packaged sequence share a filename, the
archive holds a single entry under that name whose content is the bytes
of the later image — the later write replaces the earlier entry — while
entries under other names are preserved in write order. -/
theorem C9_duplicate_last_write_wins (b1 b2 b3 : List Nat) (n m : String)
    (hnm : n ≠ m) :
    handleDownloadAll [⟨b1, n⟩, ⟨b2, n⟩] = ⟨[(n, b2)]⟩ ∧
    handleDownloadAll [⟨b1, n⟩, ⟨b3, m⟩, ⟨b2, n⟩] =
      ⟨[(n, b2), (m, b3)]⟩ := by
  constructor
  · simp [handleDownloadAll, zipFile]
  · simp [handleDownloadAll, zipFile, hnm, Ne.symm hnm]

theorem C9_duplicate_last_write_wins_witness :
    handleDownloadAll [⟨[1], "a.webp"⟩, ⟨[2], "a.webp"⟩] =
      ⟨[("a.webp", [2])]⟩ ∧
    handleDownloadAll
        [⟨[1], "a.webp"⟩, ⟨[3], "b.webp"⟩, ⟨[2], "a.webp"⟩] =
      ⟨[("a.webp", [2]), ("b.webp", [3])]⟩ :=
  C9_duplicate_last_write_wins [1] [2] [3] "a.webp" "b.webp" (by decide)

lemma runBatch_ff (env : Env) (s : SysState) (vs : List IVideoInput)
    (h : s.ff.loaded = true ∨ env.loadOk = true) :
    (runBatch env s vs).ff =
      if s.ff.loaded then s.ff else ⟨true, s.ff.loadCount + 1⟩ := by
  unfold runBatch
  rw [handleProcess_ok env s.ff s.fs s.names { s.st with videos := vs } h]

lemma loadCount_invariant (env : Env) (h : env.loadOk = true)
    (batches : List (List IVideoInput)) :
    ∀ s : SysState,
      s.ff.loadCount = (if s.ff.loaded then 1 else 0) →
      (batches.foldl (runBatch env) s).ff.loadCount =
        (if (batches.foldl (runBatch env) s).ff.loaded then 1 else 0) := by
  induction batches with
  | nil =>
    intro s hs
    simpa using hs
  | cons vs rest ih =>
    intro s hs
    simp only [List.foldl_cons]
    apply ih
    rw [runBatch_ff env s vs (Or.inr h)]
    cases hl : s.ff.loaded with
    | true =>
      simp only [hl] at hs
      simp [hl, hs]
    | false =>
      simp only [hl] at hs
      simp [hl, hs]

/-- C7: the decoding engine is initialized at most once per process
lifetime: a batch invocation that finds the engine already loaded leaves
its state untouched (it never calls `load()` again), and across any
sequence of batch invocations from the initial state with a succeeding
loader, `load()` runs at most once in total. -/
theorem C7_load_once (env : Env) (batches : List (List IVideoInput))
    (s : SysState) (vs : List IVideoInput)
    (h : env.loadOk = true) (hs : s.ff.loaded = true) :
    (runBatch env s vs).ff = s.ff ∧
    (batches.foldl (runBatch env) initState).ff.loadCount ≤ 1 := by
  constructor
  · rw [runBatch_ff env s vs (Or.inl hs), if_pos hs]
  · have hinv := loadCount_invariant env h batches initState (by rfl)
    rw [hinv]
    cases (batches.foldl (runBatch env) initState).ff.loaded <;> simp

theorem C7_load_once_witness :
    (runBatch envAllOk ⟨⟨true, 1⟩, [], 2, ⟨[], [], false⟩⟩ [vGood1]).ff =
      (⟨⟨true, 1⟩, [], 2, ⟨[], [], false⟩⟩ : SysState).ff ∧
    ([[vGood1], [vGood2], []].foldl (runBatch envAllOk)
        initState).ff.loadCount ≤ 1 :=
  C7_load_once envAllOk [[vGood1], [vGood2], []]
    ⟨⟨true, 1⟩, [], 2, ⟨[], [], false⟩⟩ [vGood1] rfl rfl

/-- C10: when the engine is not loaded and `ffmpeg.load()` fails at the
start of a batch, the call rejects before any input is fetched or
extracted — the virtual file system and name supply are untouched — and
the previously held result list is left unchanged: `images` still holds
its prior value, with only `isProcessing` flipped to true. -/
theorem C10_load_failure_propagates (env : Env) (ff : FFmpegState)
    (fs : FSys) (names : Nat) (st : AppState)
    (hl : ff.loaded = false) (hbad : env.loadOk = false) :
    handleProcess env ff fs names st =
      .error (⟨false, ff.loadCount + 1⟩, fs, names,
        ⟨st.videos, st.images, true⟩) := by
  unfold handleProcess
  simp [hl, hbad]

theorem C10_load_failure_propagates_witness :
    handleProcess ⟨fun _ => some [0, 1], fun b n => some (n :: b), false⟩
        ⟨false, 0⟩ [] 0 ⟨[vGood1], [⟨[5], "old.webp"⟩], false⟩ =
      .error (⟨false, 1⟩, [], 0,
        ⟨[vGood1], [⟨[5], "old.webp"⟩], true⟩) :=
  C10_load_failure_propagates
    ⟨fun _ => some [0, 1], fun b n => some (n :: b), false⟩
    ⟨false, 0⟩ [] 0 ⟨[vGood1], [⟨[5], "old.webp"⟩], false⟩ rfl rfl
